import Mathlib

/-!
Verification of the stone-js router core against its natural-language
specification.  The repository snapshot ships the tests, declarations and
blueprint glue of the router together with the source of
`RedirectDispatcher` (src/src/RouterEventHandler.ts); the implementation
files of `Route`, `RouteCollection`, `RouteMapper`, `Router` and
`RouterErrorHandler` are not part of the snapshot, so those components are
modelled from the specification (each such definition says so in its doc
comment).  URIs are embedded at the granularity of decoded path segments
(the list of strings between the slashes of the decoded pathname), and
JavaScript route-parameter values are embedded as `PValue` (a string or a
number); machine arithmetic plays no role in the router, so numbers are
plain naturals.
-/

/-- The error taxonomy of the router (spec section 7): `RouterError` for
configuration and programmer errors, `RouteNotFoundError` when nothing
matches or a required parameter is missing, `MethodNotAllowedError` when
the path matches but the method does not.  The method-not-allowed variant
carries the allowed method set, as the spec requires. -/
inductive RouterFailure where
  | routerError
  | routeNotFound
  | methodNotAllowed (allowed : List String)
deriving DecidableEq, Repr

/-- A JavaScript route-parameter value: either a number or a string.
Route parameters in the router are either raw captures (strings), their
numeric coercions, or declared default values. -/
inductive PValue where
  | num (n : Nat)
  | str (s : String)
deriving DecidableEq, Repr

/-- Decimal accumulation over characters: fails at the first non-digit. -/
def parseNatAux : Nat → List Char → Option Nat
  | acc, [] => some acc
  | acc, ch :: l =>
    if '0' ≤ ch ∧ ch ≤ '9' then parseNatAux (acc * 10 + (ch.toNat - '0'.toNat)) l
    else none

/-- Decimal parse of a non-empty all-digit string. -/
def strToNat (s : String) : Option Nat :=
  match s.data with
  | [] => none
  | l => parseNatAux 0 l

/-- Numeric coercion of a raw captured string, from `Route.bind` step 4:
a numeric-looking raw value is coerced to a number, any other raw value is
left as a string.  Numeric-looking is embedded as a successful decimal
parse of a non-empty digit string. -/
def coerceRaw (s : String) : PValue :=
  match strToNat s with
  | some n => PValue.num n
  | none => PValue.str s

/-- Rendering of a parameter value into URI text, as `Route.generate`
interpolates it into the path. -/
def renderValue : PValue → String
  | PValue.num n => toString n
  | PValue.str s => s

/-! ## C8 — RedirectDispatcher (source present in the snapshot)

The dispatcher source is in src/src/RouterEventHandler.ts lines 56-99.
`dispatch` rejects an empty redirect option and otherwise runs
`runRedirection` with the default status 302; `runRedirection` recurses
through object redirects (taking their `location` and `status`) and
function redirects (recursing on the returned value with the default
status again), and finally produces `{statusCode, headers: {Location}}`. -/

/-- The runtime shape of a `redirect` option: a string URL, an object
`{location, status}` (whose location may itself be any redirect value, as
`runRedirection` re-dispatches on it), or a function; a function redirect
is embedded by the value it returns for the dispatched event. -/
inductive RedirectValue where
  | str (s : String)
  | obj (location : RedirectValue) (status : Nat)
  | fn (result : RedirectValue)
deriving DecidableEq, Repr

/-- The response produced by the redirect dispatcher:
`{statusCode, headers: {Location: location}}`. -/
structure RedirectResponse where
  statusCode : Nat
  location : String
deriving DecidableEq, Repr

/-- `RedirectDispatcher.runRedirection` (src/src/RouterEventHandler.ts
lines 85-98): an object redirect recurses on its `location` with its
parsed `status`; a function redirect recurses on the function result with
the default status 302 (the incoming status is not forwarded); a string
produces the response with the current status. -/
def runRedirection : RedirectValue → Nat → RedirectResponse
  | RedirectValue.obj location status, _ => runRedirection location status
  | RedirectValue.fn result, _ => runRedirection result 302
  | RedirectValue.str s, statusCode => { statusCode := statusCode, location := s }

/-- `RedirectDispatcher.dispatch` (src/src/RouterEventHandler.ts lines
77-83): if the route has a non-empty `redirect` option, run the
redirection with default status 302, else fail with `RouterError`
(message "No redirect value provided").  The `isNotEmpty` guard treats a
missing value and an empty string as empty. -/
def redirectDispatch : Option RedirectValue → Except RouterFailure RedirectResponse
  | none => Except.error RouterFailure.routerError
  | some (RedirectValue.str s) =>
      if s.isEmpty then Except.error RouterFailure.routerError
      else Except.ok (runRedirection (RedirectValue.str s) 302)
  | some r => Except.ok (runRedirection r 302)

/-- C8: for every route with a redirect, `RedirectDispatcher.dispatch`
resolves a non-empty string value to `{statusCode: 302, headers:
{Location: string}}`; an object `{location, status}` to `{statusCode:
status, headers: {Location: location}}`; a function redirect by recursing
on its return value under the same rules (with the default status 302);
and both an empty redirect (the empty string, which the `isNotEmpty`
guard rejects) and a missing redirect fail with `RouterError`. -/
theorem redirect_dispatch_resolution :
    (∀ s : String, s ≠ "" →
      redirectDispatch (some (RedirectValue.str s)) =
        Except.ok { statusCode := 302, location := s }) ∧
    (∀ (loc : String) (st : Nat),
      redirectDispatch (some (RedirectValue.obj (RedirectValue.str loc) st)) =
        Except.ok { statusCode := st, location := loc }) ∧
    (∀ (r : RedirectValue) (st : Nat),
      runRedirection (RedirectValue.fn r) st = runRedirection r 302) ∧
    (∀ r : RedirectValue,
      redirectDispatch (some (RedirectValue.fn r)) =
        Except.ok (runRedirection r 302)) ∧
    redirectDispatch (some (RedirectValue.str "")) =
      Except.error RouterFailure.routerError ∧
    redirectDispatch none = Except.error RouterFailure.routerError := by
  refine ⟨?_, ?_, ?_, ?_, rfl, rfl⟩
  · intro s hs
    simp [redirectDispatch, runRedirection, String.isEmpty_iff, hs]
  · intro loc st
    rfl
  · intro r st
    rfl
  · intro r
    rfl

/-- Witness for C8 at concrete inputs: the string redirect "/home" is
non-empty and resolves to status 302 with Location "/home". -/
theorem redirect_dispatch_resolution_witness :
    redirectDispatch (some (RedirectValue.str "/home")) =
      Except.ok { statusCode := 302, location := "/home" } :=
  redirect_dispatch_resolution.1 "/home" (by decide)

/-! ## Shared list utilities

Small executable list functions used by the models: first-index search
(the insertion-order scan of `RouteCollection.match`), first-seen
de-duplication (the middleware gather and the allowed-method set), and an
insertion sort on strings (the sorted `Allow` header). -/

/-- Index of the first element satisfying the predicate, scanning in list
order. -/
def firstIdxSat (p : α → Bool) : List α → Option Nat
  | [] => none
  | a :: l => if p a then some 0 else (firstIdxSat p l).map (· + 1)

/-- Worker for first-seen de-duplication: keep an element when it has
not been seen yet. -/
def dedupFirstAux [DecidableEq α] (seen : List α) : List α → List α
  | [] => []
  | a :: l => if a ∈ seen then dedupFirstAux seen l else a :: dedupFirstAux (a :: seen) l

/-- De-duplication keeping the first occurrence of every element, in
first-seen order, as JavaScript set-based de-duplication does. -/
def dedupFirst [DecidableEq α] (l : List α) : List α :=
  dedupFirstAux [] l

/-- Insertion of a string into a sorted list, by lexicographic order. -/
def insertSorted (s : String) : List String → List String
  | [] => [s]
  | a :: l => if a < s then a :: insertSorted s l else s :: a :: l

/-- Insertion sort on strings. -/
def sortStrings : List String → List String
  | [] => []
  | a :: l => insertSorted a (sortStrings l)

theorem firstIdxSat_eq_some (p : α → Bool) :
    ∀ (l : List α) (i : Nat) (h : i < l.length),
      p l[i] = true →
      (∀ (j : Nat) (hj : j < l.length), j < i → p l[j] = false) →
      firstIdxSat p l = some i := by
  intro l
  induction l with
  | nil => intro i h; simp at h
  | cons a t ih =>
    intro i h hp hbefore
    match i with
    | 0 =>
      simp only [List.getElem_cons_zero] at hp
      simp [firstIdxSat, hp]
    | k + 1 =>
      have ha : p a = false := by
        have := hbefore 0 (by simp) (by omega)
        simpa using this
      have ht : firstIdxSat p t = some k := by
        apply ih k (by simpa using h)
        · simpa using hp
        · intro j hj hlt
          have := hbefore (j + 1) (by simpa using hj) (by omega)
          simpa using this
      simp [firstIdxSat, ha, ht]

theorem firstIdxSat_eq_none (p : α → Bool) :
    ∀ l : List α, (∀ x ∈ l, p x = false) → firstIdxSat p l = none := by
  intro l
  induction l with
  | nil => intro; rfl
  | cons a t ih =>
    intro hall
    have ha : p a = false := hall a (by simp)
    have ht := ih (fun x hx => hall x (by simp [hx]))
    simp [firstIdxSat, ha, ht]

theorem mem_dedupFirstAux [DecidableEq α] {a : α} :
    ∀ (l seen : List α), a ∈ dedupFirstAux seen l ↔ (a ∈ l ∧ a ∉ seen) := by
  intro l
  induction l with
  | nil => intro seen; simp [dedupFirstAux]
  | cons b t ih =>
    intro seen
    by_cases hb : b ∈ seen
    · rw [dedupFirstAux, if_pos hb, ih]
      constructor
      · rintro ⟨ht, hs⟩; exact ⟨List.mem_cons_of_mem _ ht, hs⟩
      · rintro ⟨hbt, hs⟩
        rcases List.mem_cons.mp hbt with rfl | ht
        · exact absurd hb hs
        · exact ⟨ht, hs⟩
    · rw [dedupFirstAux, if_neg hb]
      by_cases hab : a = b
      · subst hab; simp [hb]
      · constructor
        · intro hmem
          rcases List.mem_cons.mp hmem with rfl | hmem
          · exact absurd rfl hab
          · have h2 := (ih (b :: seen)).mp hmem
            exact ⟨List.mem_cons_of_mem _ h2.1,
              fun hs => h2.2 (List.mem_cons_of_mem _ hs)⟩
        · rintro ⟨hbt, hs⟩
          rcases List.mem_cons.mp hbt with rfl | ht
          · exact absurd rfl hab
          · refine List.mem_cons_of_mem _ ((ih (b :: seen)).mpr ⟨ht, fun hmem => ?_⟩)
            rcases List.mem_cons.mp hmem with rfl | hmem
            · exact hab rfl
            · exact hs hmem

theorem mem_dedupFirst [DecidableEq α] {a : α} {l : List α} :
    a ∈ dedupFirst l ↔ a ∈ l := by
  rw [dedupFirst, mem_dedupFirstAux]
  simp

theorem nodup_dedupFirstAux [DecidableEq α] :
    ∀ (l seen : List α), (dedupFirstAux seen l).Nodup := by
  intro l
  induction l with
  | nil => intro seen; simp [dedupFirstAux]
  | cons b t ih =>
    intro seen
    by_cases hb : b ∈ seen
    · rw [dedupFirstAux, if_pos hb]; exact ih seen
    · rw [dedupFirstAux, if_neg hb]
      refine List.nodup_cons.mpr ⟨?_, ih (b :: seen)⟩
      intro hmem
      have := (mem_dedupFirstAux t (b :: seen)).mp hmem
      simp at this

theorem nodup_dedupFirst [DecidableEq α] (l : List α) : (dedupFirst l).Nodup :=
  nodup_dedupFirstAux l []

/-! ## C1 — RouteCollection.match (modelled from the spec)

The implementation file RouteCollection.ts is absent from the snapshot;
only its test suite (src/tests/RouteCollection.spec.ts) is present.  The
model below follows spec section 4.5: routes are kept in insertion order;
an event is first matched against the bucket of routes carrying the event
method (with the method matcher skipped inside the bucket); if that
fails, all routes are re-scanned with the method matcher skipped, and a
hit produces either a synthetic OPTIONS route or `MethodNotAllowedError`;
otherwise `RouteNotFoundError`.  A route is embedded by its method plus
the conjunction of its non-method matchers on the event path. -/

/-- A decoded request path, as the list of its slash-separated segments. -/
abbrev Uri := List String

/-- An incoming event, reduced to the fields `RouteCollection.match`
consumes: the HTTP method and the decoded pathname. -/
structure REvent where
  method : String
  path : Uri

/-- A compiled route as the collection sees it: its single method, and
the combined verdict of its non-method matchers (uri, host, protocol) on
an event path. -/
structure CRoute where
  method : String
  matchesRest : Uri → Bool

/-- Full match of one route: the method matches and so do all the other
matchers.  This is row one of the spec's matching table; inside the
method bucket the method comparison is exactly the bucket membership. -/
def fullMatch (ev : REvent) (r : CRoute) : Bool :=
  r.method == ev.method && r.matchesRest ev.path

/-- The synthetic OPTIONS response:
`{statusCode: 200, content: {Allow: methods}}`. -/
structure OptionsSynthetic where
  statusCode : Nat
  allow : String
deriving DecidableEq, Repr

/-- Outcome of a successful `RouteCollection.match`: the index (in
insertion order) of the matched route, or the synthetic OPTIONS route. -/
inductive MatchResult where
  | matched (i : Nat)
  | optionsFallback (resp : OptionsSynthetic)
deriving DecidableEq, Repr

/-- Modelled from the spec: `RouteCollection.match` (spec section 4.5;
RouteCollection.ts is not in the snapshot).  Stage 1 returns the first
route, in insertion order, whose method equals the event method and whose
remaining matchers succeed.  Stage 2 re-scans with the method matcher
skipped and collects the allowed method set; a non-empty set yields the
synthetic OPTIONS route (status 200, `Allow` = sorted methods joined by
",") when the event method is OPTIONS, and `MethodNotAllowedError`
carrying the set otherwise.  Stage 3 fails with `RouteNotFoundError`. -/
def collMatch (routes : List CRoute) (ev : REvent) : Except RouterFailure MatchResult :=
  match firstIdxSat (fullMatch ev) routes with
  | some i => Except.ok (MatchResult.matched i)
  | none =>
    let allowed := dedupFirst
      ((routes.filter (fun r => r.matchesRest ev.path)).map CRoute.method)
    if allowed.isEmpty then Except.error RouterFailure.routeNotFound
    else if ev.method == "OPTIONS" then
      Except.ok (MatchResult.optionsFallback
        { statusCode := 200, allow := String.intercalate "," (sortStrings allowed) })
    else Except.error (RouterFailure.methodNotAllowed allowed)

/-- The allowed method set an event sees: the methods of the routes that
match once the method matcher is skipped, de-duplicated in first-seen
order. -/
def allowedMethods (routes : List CRoute) (ev : REvent) : List String :=
  dedupFirst ((routes.filter (fun r => r.matchesRest ev.path)).map CRoute.method)

/-- C1: `RouteCollection.match` resolves in three stages.  If some route
fully matches, the first such route in insertion order is returned.  If
none does but some route matches with the method matcher skipped, an
OPTIONS event gets a synthetic route producing
`{statusCode: 200, content: {Allow: sorted methods joined by ","}}` and
any other event fails with `MethodNotAllowedError` carrying the allowed
method set.  If no route matches even with the method skipped, match
fails with `RouteNotFoundError`. -/
theorem route_collection_match_stages (routes : List CRoute) (ev : REvent) :
    (∀ (i : Nat) (h : i < routes.length),
      fullMatch ev routes[i] = true →
      (∀ (j : Nat) (hj : j < routes.length), j < i → fullMatch ev routes[j] = false) →
      collMatch routes ev = Except.ok (MatchResult.matched i)) ∧
    ((∀ r ∈ routes, fullMatch ev r = false) →
      (∃ r ∈ routes, r.matchesRest ev.path = true) →
      ev.method = "OPTIONS" →
      collMatch routes ev = Except.ok (MatchResult.optionsFallback
        { statusCode := 200,
          allow := String.intercalate "," (sortStrings (allowedMethods routes ev)) })) ∧
    ((∀ r ∈ routes, fullMatch ev r = false) →
      (∃ r ∈ routes, r.matchesRest ev.path = true) →
      ev.method ≠ "OPTIONS" →
      collMatch routes ev =
        Except.error (RouterFailure.methodNotAllowed (allowedMethods routes ev))) ∧
    ((∀ r ∈ routes, r.matchesRest ev.path = false) →
      collMatch routes ev = Except.error RouterFailure.routeNotFound) := by
  have hnonempty : (∃ r ∈ routes, r.matchesRest ev.path = true) →
      (allowedMethods routes ev).isEmpty = false := by
    rintro ⟨r, hr, hrest⟩
    have hmem : r.method ∈ allowedMethods routes ev := by
      unfold allowedMethods
      rw [mem_dedupFirst]
      exact List.mem_map_of_mem _ (List.mem_filter.mpr ⟨hr, hrest⟩)
    cases hall : allowedMethods routes ev with
    | nil => rw [hall] at hmem; simp at hmem
    | cons a t => simp [List.isEmpty]
  refine ⟨?_, ?_, ?_, ?_⟩
  · intro i h hp hbefore
    unfold collMatch
    rw [firstIdxSat_eq_some (fullMatch ev) routes i h hp hbefore]
  · intro hnofull hsome hopt
    unfold collMatch
    rw [firstIdxSat_eq_none (fullMatch ev) routes hnofull]
    have he := hnonempty hsome
    simp only [allowedMethods] at he
    simp [he, hopt, allowedMethods]
  · intro hnofull hsome hopt
    unfold collMatch
    rw [firstIdxSat_eq_none (fullMatch ev) routes hnofull]
    have he := hnonempty hsome
    simp only [allowedMethods] at he
    have hms : (ev.method == "OPTIONS") = false := by
      simpa using hopt
    simp [he, hms, allowedMethods]
  · intro hnorest
    unfold collMatch
    have hnofull : ∀ r ∈ routes, fullMatch ev r = false := by
      intro r hr
      simp [fullMatch, hnorest r hr]
    rw [firstIdxSat_eq_none (fullMatch ev) routes hnofull]
    have hfe : routes.filter (fun r => r.matchesRest ev.path) = [] := by
      rw [List.filter_eq_nil_iff]
      intro r hr
      simp [hnorest r hr]
    simp [hfe, dedupFirst, dedupFirstAux]

/-- A POST-only route for the C1 witness (spec scenario C). -/
def onlyPostRoute : CRoute :=
  { method := "POST", matchesRest := fun u => u == ["only-post"] }

/-- Witness for C1 at a concrete input, following spec scenario C: a
lone POST route, an OPTIONS event on its path; match returns the
synthetic route with status 200 and Allow "POST". -/
theorem route_collection_match_stages_witness :
    collMatch [onlyPostRoute] { method := "OPTIONS", path := ["only-post"] } =
      Except.ok (MatchResult.optionsFallback { statusCode := 200, allow := "POST" }) := by
  have h := (route_collection_match_stages [onlyPostRoute]
      { method := "OPTIONS", path := ["only-post"] }).2.1
    (by decide) (by decide) rfl
  have hallow : String.intercalate ","
      (sortStrings (allowedMethods [onlyPostRoute]
        { method := "OPTIONS", path := ["only-post"] })) = "POST" := by decide
  rw [h, hallow]

/-! ## C10 — named-route lookup (modelled from the spec)

Router.ts and RouteCollection.ts are absent from the snapshot; their
tests (src/tests/RouteCollection.spec.ts lines 129-131 and
src/tests/Router.spec.ts lines 302-305) exercise this behaviour.  The
collection keeps a by-name index in which a later `add` overwrites an
earlier route of the same name, so `getByName` resolves to the route
added last under that name, and to nothing when the name is absent;
`Router.generate` turns the absent name into `RouteNotFoundError`. -/

/-- A route as the name index sees it: an optional name, plus the URL the
route would generate (standing in for `route.generate`). -/
structure NRoute where
  name : Option String
  target : String
deriving DecidableEq, Repr

/-- Modelled from the spec: `RouteCollection.getByName` (spec section
4.5; RouteCollection.ts is not in the snapshot).  The by-name index is
overwritten on duplicate names by later adds, hence the lookup scans the
routes latest-first; an absent name yields no route and no failure. -/
def getByName (routes : List NRoute) (n : String) : Option NRoute :=
  routes.reverse.find? (fun r => r.name == some n)

/-- Modelled from the spec: `Router.generate({name})` (spec section 4.7;
Router.ts is not in the snapshot).  It resolves the route via
`getByName` and fails with `RouteNotFoundError` when the name is absent,
otherwise delegates to `route.generate`. -/
def routerGenerate (routes : List NRoute) (n : String) : Except RouterFailure String :=
  match getByName routes n with
  | none => Except.error RouterFailure.routeNotFound
  | some r => Except.ok r.target

/-- C10: for a name no registered route carries, `RouteCollection.getByName`
returns nothing without failing (the lookup is total into an optional
result), while `Router.generate({name})` fails with `RouteNotFoundError`
for that same absent name. -/
theorem absent_name_lookup (routes : List NRoute) (n : String)
    (habsent : ∀ r ∈ routes, r.name ≠ some n) :
    getByName routes n = none ∧
    routerGenerate routes n = Except.error RouterFailure.routeNotFound := by
  have hnone : getByName routes n = none := by
    unfold getByName
    rw [List.find?_eq_none]
    intro r hr
    have := habsent r (List.mem_reverse.mp hr)
    simpa using this
  refine ⟨hnone, ?_⟩
  unfold routerGenerate
  rw [hnone]

/-- Witness for C10 at a concrete input: a collection holding one route
named "home" has no route named "ghost". -/
theorem absent_name_lookup_witness :
    getByName [{ name := some "home", target := "/home" }] "ghost" = none ∧
    routerGenerate [{ name := some "home", target := "/home" }] "ghost" =
      Except.error RouterFailure.routeNotFound :=
  absent_name_lookup [{ name := some "home", target := "/home" }] "ghost" (by decide)

/-! ## C7 — Router.gatherRouteMiddleware (modelled from the spec)

Router.ts is absent from the snapshot; its tests
(src/tests/Router.spec.ts lines 352-387) exercise this behaviour.  Per
spec section 4.7 the gather takes the union of the global middleware and
the route middleware in insertion order, de-duplicates it keeping the
first occurrence, drops middleware the route excludes, and returns
nothing at all under the `skipMiddleware` flag. -/

/-- The slice of the router options the gather reads: the global
middleware list and the `skipMiddleware` flag. -/
structure MwRouterOptions (α : Type) where
  middleware : List α
  skipMiddleware : Bool

/-- The slice of a route the gather reads: its own middleware option and
its `excludeMiddleware` option. -/
structure MwRoute (α : Type) where
  middleware : List α
  excludeMiddleware : List α

/-- `Route.isMiddlewareExcluded`: membership in the route's
`excludeMiddleware` option. -/
def isMiddlewareExcluded [DecidableEq α] (r : MwRoute α) (m : α) : Bool :=
  r.excludeMiddleware.contains m

/-- Modelled from the spec: `Router.gatherRouteMiddleware` (spec section
4.7; Router.ts is not in the snapshot): global middleware followed by the
route middleware, filtered by `isMiddlewareExcluded`, de-duplicated in
first-seen order; the empty list under `skipMiddleware`. -/
def gatherRouteMiddleware [DecidableEq α] (ro : MwRouterOptions α) (r : MwRoute α) : List α :=
  if ro.skipMiddleware then []
  else dedupFirst ((ro.middleware ++ r.middleware).filter
    (fun m => !(isMiddlewareExcluded r m)))

theorem filter_indexOf_lt [DecidableEq α] (p : α → Bool) :
    ∀ (l : List α) (x y : α), x ∈ l.filter p → y ∈ l.filter p →
      (l.filter p).indexOf x < (l.filter p).indexOf y →
      l.indexOf x < l.indexOf y := by
  intro l
  induction l with
  | nil => intro x y hx; simp at hx
  | cons c t ih =>
    intro x y hx hy hlt
    by_cases hp : p c
    · rw [List.filter_cons_of_pos hp] at hx hy hlt
      by_cases hxc : x = c
      · subst hxc
        have hyc : y ≠ x := by
          intro hyx
          rw [hyx, List.indexOf_cons_self] at hlt
          simp at hlt
        rw [List.indexOf_cons_self]
        rw [List.indexOf_cons_ne _ (fun h => hyc h.symm)]
        exact Nat.succ_pos _
      · have hyc : y ≠ c := by
          intro hyc
          subst hyc
          rw [List.indexOf_cons_self] at hlt
          simp at hlt
        have hx2 : x ∈ t.filter p := by
          rcases List.mem_cons.mp hx with h | h
          · exact absurd h hxc
          · exact h
        have hy2 : y ∈ t.filter p := by
          rcases List.mem_cons.mp hy with h | h
          · exact absurd h hyc
          · exact h
        rw [List.indexOf_cons_ne _ (fun h => hxc h.symm),
          List.indexOf_cons_ne _ (fun h => hyc h.symm)] at hlt
        have := ih x y hx2 hy2 (Nat.lt_of_succ_lt_succ hlt)
        rw [List.indexOf_cons_ne _ (fun h => hxc h.symm),
          List.indexOf_cons_ne _ (fun h => hyc h.symm)]
        exact Nat.succ_lt_succ this
    · rw [List.filter_cons_of_neg hp] at hx hy hlt
      have hxc : x ≠ c := by
        intro h; subst h
        exact hp (List.of_mem_filter hx)
      have hyc : y ≠ c := by
        intro h; subst h
        exact hp (List.of_mem_filter hy)
      rw [List.indexOf_cons_ne _ (fun h => hxc h.symm),
        List.indexOf_cons_ne _ (fun h => hyc h.symm)]
      exact Nat.succ_lt_succ (ih x y hx hy hlt)

theorem dedupFirstAux_pairwise_indexOf [DecidableEq α] :
    ∀ (l seen : List α),
      (dedupFirstAux seen l).Pairwise (fun x y => l.indexOf x < l.indexOf y) := by
  intro l
  induction l with
  | nil => intro seen; simp [dedupFirstAux]
  | cons b t ih =>
    intro seen
    by_cases hb : b ∈ seen
    · rw [dedupFirstAux, if_pos hb]
      refine ((ih seen).imp_of_mem ?_)
      intro x y hx hy hlt
      have hxs := (mem_dedupFirstAux t seen).mp hx
      have hys := (mem_dedupFirstAux t seen).mp hy
      have hxb : x ≠ b := fun h => hxs.2 (h ▸ hb)
      have hyb : y ≠ b := fun h => hys.2 (h ▸ hb)
      rw [List.indexOf_cons_ne _ (fun h => hxb h.symm),
        List.indexOf_cons_ne _ (fun h => hyb h.symm)]
      exact Nat.succ_lt_succ hlt
    · rw [dedupFirstAux, if_neg hb]
      refine List.pairwise_cons.mpr ⟨?_, ?_⟩
      · intro y hy
        have hys := (mem_dedupFirstAux t (b :: seen)).mp hy
        have hyb : y ≠ b := fun h => hys.2 (h ▸ List.mem_cons_self b seen)
        rw [List.indexOf_cons_self, List.indexOf_cons_ne _ (fun h => hyb h.symm)]
        exact Nat.succ_pos _
      · refine ((ih (b :: seen)).imp_of_mem ?_)
        intro x y hx hy hlt
        have hxs := (mem_dedupFirstAux t (b :: seen)).mp hx
        have hys := (mem_dedupFirstAux t (b :: seen)).mp hy
        have hxb : x ≠ b := fun h => hxs.2 (h ▸ List.mem_cons_self b seen)
        have hyb : y ≠ b := fun h => hys.2 (h ▸ List.mem_cons_self b seen)
        rw [List.indexOf_cons_ne _ (fun h => hxb h.symm),
          List.indexOf_cons_ne _ (fun h => hyb h.symm)]
        exact Nat.succ_lt_succ hlt

/-- C7: `gatherRouteMiddleware` returns the union of the global and the
route middleware: an element belongs to the result exactly when it occurs
in one of the two lists, is not excluded by the route, and the
`skipMiddleware` flag is off; the result has no duplicates; its elements
appear in first-seen insertion order of the concatenated input (indices
strictly increase); and the result is empty whenever `skipMiddleware` is
set. -/
theorem gather_route_middleware_spec [DecidableEq α]
    (ro : MwRouterOptions α) (r : MwRoute α) :
    (ro.skipMiddleware = true → gatherRouteMiddleware ro r = []) ∧
    (gatherRouteMiddleware ro r).Nodup ∧
    (∀ m, m ∈ gatherRouteMiddleware ro r ↔
      (ro.skipMiddleware = false ∧ (m ∈ ro.middleware ∨ m ∈ r.middleware) ∧
        isMiddlewareExcluded r m = false)) ∧
    (gatherRouteMiddleware ro r).Pairwise
      (fun x y => (ro.middleware ++ r.middleware).indexOf x <
        (ro.middleware ++ r.middleware).indexOf y) := by
  refine ⟨?_, ?_, ?_, ?_⟩
  · intro hskip
    unfold gatherRouteMiddleware
    rw [if_pos hskip]
  · unfold gatherRouteMiddleware
    by_cases hskip : ro.skipMiddleware
    · rw [if_pos hskip]; exact List.nodup_nil
    · rw [if_neg hskip]; exact nodup_dedupFirst _
  · intro m
    unfold gatherRouteMiddleware
    by_cases hskip : ro.skipMiddleware
    · rw [if_pos hskip]
      simp [hskip]
    · rw [if_neg hskip]
      rw [mem_dedupFirst, List.mem_filter, List.mem_append]
      constructor
      · rintro ⟨hmem, hexc⟩
        refine ⟨by simpa using hskip, hmem, by simpa using hexc⟩
      · rintro ⟨_, hmem, hexc⟩
        exact ⟨hmem, by simp [hexc]⟩
  · unfold gatherRouteMiddleware
    by_cases hskip : ro.skipMiddleware
    · rw [if_pos hskip]; exact List.Pairwise.nil
    · rw [if_neg hskip]
      refine (dedupFirstAux_pairwise_indexOf _ []).imp_of_mem ?_
      intro x y hx hy hlt
      exact filter_indexOf_lt _ _ x y
        ((mem_dedupFirstAux _ []).mp hx).1
        ((mem_dedupFirstAux _ []).mp hy).1 hlt

/-- Witness for C7 at concrete inputs over natural-number middleware:
with global [1, 2], route [2, 3], exclusion [3] and the flag off, 2 is
gathered (once), 3 is not, and with the flag on nothing is gathered. -/
theorem gather_route_middleware_spec_witness :
    (2 ∈ gatherRouteMiddleware (α := Nat)
      { middleware := [1, 2], skipMiddleware := false }
      { middleware := [2, 3], excludeMiddleware := [3] }) ∧
    (¬ 3 ∈ gatherRouteMiddleware (α := Nat)
      { middleware := [1, 2], skipMiddleware := false }
      { middleware := [2, 3], excludeMiddleware := [3] }) ∧
    gatherRouteMiddleware (α := Nat)
      { middleware := [1, 2], skipMiddleware := true }
      { middleware := [2, 3], excludeMiddleware := [3] } = [] := by
  refine ⟨?_, ?_, ?_⟩
  · exact ((gather_route_middleware_spec _ _).2.2.1 2).mpr
      (by refine ⟨rfl, ?_, by decide⟩; left; decide)
  · intro hmem
    have := ((gather_route_middleware_spec _ _).2.2.1 3).mp hmem
    exact absurd this.2.2 (by decide)
  · exact (gather_route_middleware_spec _ _).1 rfl

/-! ## C9 — RouterErrorHandler (modelled from the spec and its tests)

RouterErrorHandler.ts is absent from the snapshot; its test suite
(src/tests/blueprint/KernelUtils.spec.ts lines 321-401) pins the
behaviour precisely: the handler maps the error name to a status code
(404 for RouteNotFoundError, 405 for MethodNotAllowedError, 500
otherwise), logs the original error message, and builds the body from the
STANDARD STATUS PHRASE of the mapped code — the test feeds an error with
message "Wrong method" and observes content {error: "Method Not Allowed"}
— not from the error's own message.  The body is a JSON object when the
event prefers json and a plain string for text, html and xml. -/

/-- An error as the handler receives it: its `name` (the stable wire
value of the error kind) and its `message`. -/
structure ThrownError where
  name : String
  message : String
deriving DecidableEq, Repr

/-- The slice of the incoming event the error handler reads. -/
structure ErrorEvent where
  preferredType : String
deriving DecidableEq, Repr

/-- The body of an error response: a JSON object `{error: text}` or a
plain string. -/
inductive ErrBody where
  | jsonObj (text : String)
  | plain (text : String)
deriving DecidableEq, Repr

/-- An error response `{statusCode, content}`. -/
structure ErrResponse where
  statusCode : Nat
  content : ErrBody
deriving DecidableEq, Repr

/-- The status code of an error kind: 404 for RouteNotFoundError, 405
for MethodNotAllowedError, 500 otherwise (spec section 7). -/
def statusCodeFor (n : String) : Nat :=
  if n = "RouteNotFoundError" then 404
  else if n = "MethodNotAllowedError" then 405
  else 500

/-- The standard status phrase of the mapped status code, which the
tests observe as the response body text. -/
def statusMessageFor (c : Nat) : String :=
  if c = 404 then "Not Found"
  else if c = 405 then "Method Not Allowed"
  else "Internal Server Error"

/-- Modelled from the spec: `RouterErrorHandler.handle` (spec section 7;
RouterErrorHandler.ts is not in the snapshot, and where the spec is
ambiguous about which message the body carries the test suite decides:
the body text is the status phrase, the logger receives the error's
message).  Returns the response together with the message forwarded to
the injected logger. -/
def handleError (e : ThrownError) (ev : ErrorEvent) : ErrResponse × String :=
  let code := statusCodeFor e.name
  let text := statusMessageFor code
  let content := if ev.preferredType = "json" then ErrBody.jsonObj text else ErrBody.plain text
  ({ statusCode := code, content := content }, e.message)

/-- Counterexample to C9 as stated: handling a MethodNotAllowedError
whose message is "Wrong method" under a json-preferring event produces
the body {error: "Method Not Allowed"} — the standard status phrase —
and not {error: "Wrong method"}, the error's message, which the claim
asserts (this is test line 348-358 of
src/tests/blueprint/KernelUtils.spec.ts). -/
theorem error_body_not_error_message :
    (handleError { name := "MethodNotAllowedError", message := "Wrong method" }
      { preferredType := "json" }).1.content = ErrBody.jsonObj "Method Not Allowed" ∧
    (handleError { name := "MethodNotAllowedError", message := "Wrong method" }
      { preferredType := "json" }).1.content ≠ ErrBody.jsonObj "Wrong method" := by
  constructor
  · rfl
  · decide

/-- C9 (amended): `RouterErrorHandler.handle` maps RouteNotFoundError to
status 404, MethodNotAllowedError to 405 and any other error to 500; the
response body is the JSON object {error: text} when the event prefers
json and a plain string for text, html or xml, where the text is the
standard status phrase of the mapped code (not the error's own message);
and the handled error's message is forwarded to the injected logger. -/
theorem router_error_handler_mapping (e : ThrownError) (ev : ErrorEvent) :
    (e.name = "RouteNotFoundError" → (handleError e ev).1.statusCode = 404) ∧
    (e.name = "MethodNotAllowedError" → (handleError e ev).1.statusCode = 405) ∧
    (e.name ≠ "RouteNotFoundError" → e.name ≠ "MethodNotAllowedError" →
      (handleError e ev).1.statusCode = 500) ∧
    (ev.preferredType = "json" →
      (handleError e ev).1.content =
        ErrBody.jsonObj (statusMessageFor (statusCodeFor e.name))) ∧
    (ev.preferredType = "text" ∨ ev.preferredType = "html" ∨ ev.preferredType = "xml" →
      (handleError e ev).1.content =
        ErrBody.plain (statusMessageFor (statusCodeFor e.name))) ∧
    (handleError e ev).2 = e.message := by
  refine ⟨?_, ?_, ?_, ?_, ?_, rfl⟩
  · intro h
    simp [handleError, statusCodeFor, h]
  · intro h
    simp [handleError, statusCodeFor, h]
  · intro h1 h2
    simp [handleError, statusCodeFor, h1, h2]
  · intro h
    simp [handleError, h]
  · rintro (h | h | h) <;> simp [handleError, h]

/-- Witness for C9 at concrete inputs: a RouteNotFoundError with message
"Missing" under an html-preferring event maps to 404 with the plain body
"Not Found", and the logger receives "Missing". -/
theorem router_error_handler_mapping_witness :
    (handleError { name := "RouteNotFoundError", message := "Missing" }
      { preferredType := "html" }).1.statusCode = 404 ∧
    (handleError { name := "RouteNotFoundError", message := "Missing" }
      { preferredType := "html" }).1.content = ErrBody.plain "Not Found" ∧
    (handleError { name := "RouteNotFoundError", message := "Missing" }
      { preferredType := "html" }).2 = "Missing" := by
  have h := router_error_handler_mapping
    { name := "RouteNotFoundError", message := "Missing" } { preferredType := "html" }
  refine ⟨h.1 rfl, ?_, h.2.2.2.2.2⟩
  have h2 := h.2.2.2.2.1 (Or.inr (Or.inl rfl))
  rw [h2]
  rfl

/-! ## C2, C5, C6 — RouteMapper (modelled from the spec)

RouteMapper.ts is absent from the snapshot; its tests
(src/tests/blueprint/KernelUtils.spec.ts lines 126-317) exercise this
behaviour.  The model follows spec section 4.6: a recursive walk over the
definition tree, tracking depth against `maxDepth`; per definition the
parent prefix and name are composed (slash collapse and trailing trim for
paths, dot collapse and edge strip for names) and rules shallow-merged
with child override; leaves expand their method set, validate it against
the verb set, require a path and a handler or redirect, and synthesize an
`isInternalHeader` HEAD twin for each produced GET route.  The mapper
only ever fails with `RouterError`, which the single-constructor
`MapperError` encodes. -/

/-- The single error kind `RouteMapper` surfaces: `RouterError`. -/
inductive MapperError where
  | routerError
deriving DecidableEq, Repr

deriving instance DecidableEq for Except

/-- One pass of run-collapsing: every maximal run of the character `c` is
replaced by a single `c`; the flag records whether the previous kept
character was `c`. -/
def collapseRun (c : Char) : Bool → List Char → List Char
  | _, [] => []
  | prevC, a :: l =>
    if a = c then
      if prevC then collapseRun c true l
      else c :: collapseRun c true l
    else a :: collapseRun c false l

/-- Strip one leading occurrence of `c` (after collapsing, runs are
single, so one strip removes the whole leading run). -/
def stripLead (c : Char) : List Char → List Char
  | [] => []
  | a :: l => if a = c then l else a :: l

/-- Strip one trailing occurrence of `c`. -/
def stripTrail (c : Char) (l : List Char) : List Char :=
  (stripLead c l.reverse).reverse

/-- Modelled from the spec: path composition of `RouteMapper` (spec
section 4.6 step 2): parent prefix ++ "/" ++ current path, repeated "/"
collapsed, trailing "/" trimmed unless the result is "/". -/
def joinPath (pre p : String) : String :=
  let s := String.mk (collapseRun '/' false (pre.data ++ ['/'] ++ p.data))
  if s = "/" then s else String.mk (stripTrail '/' s.data)

/-- Modelled from the spec: name composition of `RouteMapper` (spec
section 4.6 step 2): parent name ++ "." ++ current name, repeated dots
collapsed, leading and trailing dots stripped. -/
def joinName (pre n : String) : String :=
  let s := collapseRun '.' false (pre.data ++ ['.'] ++ n.data)
  String.mk (stripTrail '.' (stripLead '.' s))

/-- A node of the user-facing recursive route-definition tree, reduced
to the fields the mapper claims touch: name, path, `method`/`methods`,
the presence of a handler and of a redirect, the rules mapping and the
children. -/
inductive RDef where
  | node (name : Option String) (path : Option String)
      (method : Option String) (methods : Option (List String))
      (hasHandler : Bool) (hasRedirect : Bool)
      (rules : List (String × String))
      (children : List RDef)
deriving Repr

/-- The flat route options the mapper produces for one route: composed
name and path, the single method, the merged rules, and the
internal-HEAD flag. -/
structure ROpts where
  name : Option String
  path : String
  method : String
  rules : List (String × String)
  isInternalHeader : Bool
deriving DecidableEq, Repr

/-- The allowed verb set (spec section 6). -/
def verbs : List String := ["GET", "HEAD", "POST", "PUT", "PATCH", "DELETE", "OPTIONS"]

/-- Shallow merge of rule mappings, child overriding parent (spec
section 4.6 step 2). -/
def mergeAssoc (parent child : List (String × String)) : List (String × String) :=
  child ++ parent.filter (fun p => !(child.any (fun q => q.1 == p.1)))

/-- Method expansion (spec section 4.6 step 3): prefer `methods[]`, else
the singleton `[method]`; a missing method with a redirect defaults to
GET; otherwise the method set is undefined and mapping the leaf fails. -/
def methodList (method : Option String) (methods : Option (List String))
    (hasRedirect : Bool) : Option (List String) :=
  match methods with
  | some ms => some ms
  | none =>
    match method with
    | some m => some [m]
    | none => if hasRedirect then some ["GET"] else none

/-- The synthesized HEAD twin of a GET route: identical options except
the method and the `isInternalHeader` flag (spec section 4.6 step 5). -/
def headTwin (r : ROpts) : ROpts :=
  { r with method := "HEAD", isInternalHeader := true }

/-- Fan-out of one leaf definition over its expanded method list,
synthesizing the HEAD twin right after each produced GET route. -/
def leafRoutes (ms : List String) (name : Option String) (path : String)
    (rules : List (String × String)) : List ROpts :=
  ms.flatMap (fun m =>
    let base : ROpts := { name := name, path := path, method := m,
                          rules := rules, isInternalHeader := false }
    if m = "GET" then [base, headTwin base] else [base])

/-- Validation and production for a leaf definition (spec section 4.6
steps 3-5): fail when neither handler nor redirect is present, when the
method set is undefined, or when a method is outside the verb set. -/
def leafOptions (hasHandler hasRedirect : Bool) (method : Option String)
    (methods : Option (List String)) (name : Option String) (path : String)
    (rules : List (String × String)) : Except MapperError (List ROpts) :=
  if !hasHandler && !hasRedirect then Except.error MapperError.routerError
  else
    match methodList method methods hasRedirect with
    | none => Except.error MapperError.routerError
    | some ms =>
      if ms.all (fun m => verbs.contains m) then
        Except.ok (leafRoutes ms name path rules)
      else Except.error MapperError.routerError

mutual
/-- Modelled from the spec: the recursive walk of `RouteMapper.toRoutes`
over one definition (spec section 4.6; RouteMapper.ts is not in the
snapshot).  Exceeding `maxDepth` fails; a missing path fails; a node with
children contributes only its composed prefix, name and merged rules to
them; a leaf validates and produces its routes. -/
def flattenOne (md depth : Nat) (prePath preName : String)
    (preRules : List (String × String)) : RDef → Except MapperError (List ROpts)
  | RDef.node name path method methods hasHandler hasRedirect rules children =>
    if depth > md then Except.error MapperError.routerError
    else
      match path with
      | none => Except.error MapperError.routerError
      | some p =>
        match children with
        | [] =>
          leafOptions hasHandler hasRedirect method methods
            (if joinName preName (name.getD "") = "" then none
             else some (joinName preName (name.getD "")))
            (joinPath prePath p) (mergeAssoc preRules rules)
        | c :: cs =>
          flattenMany md (depth + 1) (joinPath prePath p)
            (joinName preName (name.getD "")) (mergeAssoc preRules rules) (c :: cs)

/-- The walk over a list of sibling definitions, concatenating their
routes in order; any failing sibling fails the whole mapping. -/
def flattenMany (md depth : Nat) (prePath preName : String)
    (preRules : List (String × String)) : List RDef → Except MapperError (List ROpts)
  | [] => Except.ok []
  | d :: ds =>
    match flattenOne md depth prePath preName preRules d with
    | Except.error e => Except.error e
    | Except.ok r =>
      match flattenMany md depth prePath preName preRules ds with
      | Except.error e => Except.error e
      | Except.ok rs => Except.ok (r ++ rs)
end

/-- Modelled from the spec: `RouteMapper.toRoutes` (spec section 4.6),
starting the walk at depth 1 under the mapper's configured prefix. -/
def toRoutes (md : Nat) (pre : String) (defs : List RDef) : Except MapperError (List ROpts) :=
  flattenMany md 1 pre "" [] defs

mutual
/-- Nesting depth of one definition: one more than its deepest child. -/
def heightOne : RDef → Nat
  | RDef.node _ _ _ _ _ _ _ children => 1 + heightMany children

/-- Nesting depth of a definition forest. -/
def heightMany : List RDef → Nat
  | [] => 0
  | d :: ds => max (heightOne d) (heightMany ds)
end

theorem heightOne_pos (d : RDef) : 1 ≤ heightOne d := by
  cases d
  rw [heightOne]
  omega

mutual
theorem flattenOne_depth_exceeded (d : RDef) :
    ∀ (md depth : Nat) (pp pn : String) (pr : List (String × String)),
      md + 1 < depth + heightOne d →
      flattenOne md depth pp pn pr d = Except.error MapperError.routerError := by
  cases d with
  | node name path method methods hasHandler hasRedirect rules children =>
    intro md depth pp pn pr h
    rw [flattenOne.eq_def]
    dsimp only
    by_cases hd : depth > md
    · rw [if_pos hd]
    · rw [if_neg hd]
      cases path with
      | none => rfl
      | some p =>
        cases children with
        | nil =>
          exfalso
          rw [heightOne, heightMany] at h
          omega
        | cons c cs =>
          refine flattenMany_depth_exceeded (c :: cs) md (depth + 1) _ _ _ ?_ ?_
          · rw [heightMany]
            have := heightOne_pos c
            omega
          · rw [heightOne] at h
            omega

theorem flattenMany_depth_exceeded (ds : List RDef) :
    ∀ (md depth : Nat) (pp pn : String) (pr : List (String × String)),
      heightMany ds ≠ 0 →
      md + 1 < depth + heightMany ds →
      flattenMany md depth pp pn pr ds = Except.error MapperError.routerError := by
  cases ds with
  | nil =>
    intro md depth pp pn pr h0 h
    exact absurd (by rw [heightMany]) h0
  | cons d ds =>
    intro md depth pp pn pr h0 h
    rw [flattenMany.eq_def]
    dsimp only
    by_cases hc : md + 1 < depth + heightOne d
    · rw [flattenOne_depth_exceeded d md depth pp pn pr hc]
    · have hds : md + 1 < depth + heightMany ds ∧ heightMany ds ≠ 0 := by
        rw [heightMany] at h
        have := heightOne_pos d
        constructor <;> omega
      rw [flattenMany_depth_exceeded ds md depth pp pn pr hds.2 hds.1]
      cases hone : flattenOne md depth pp pn pr d with
      | error e => cases e; rfl
      | ok r => rfl
end

/-- The HEAD-parity invariant over a produced route list: the internal
routes are exactly the HEAD twins of the GET routes, in order. -/
def isParityPair (l : List ROpts) : Prop :=
  l.filter (fun r => r.isInternalHeader) =
    (l.filter (fun r => r.method == "GET")).map headTwin

theorem isParityPair_nil : isParityPair [] := by
  simp [isParityPair]

theorem isParityPair_append {l1 l2 : List ROpts} :
    isParityPair l1 → isParityPair l2 → isParityPair (l1 ++ l2) := by
  intro h1 h2
  unfold isParityPair at h1 h2 ⊢
  rw [List.filter_append, List.filter_append, List.map_append, h1, h2]

theorem isParityPair_leaf (ms : List String) (name : Option String) (path : String)
    (rules : List (String × String)) : isParityPair (leafRoutes ms name path rules) := by
  induction ms with
  | nil => exact isParityPair_nil
  | cons m ms ih =>
    rw [leafRoutes, List.flatMap_cons]
    refine isParityPair_append ?_ ih
    by_cases hm : m = "GET"
    · subst hm
      simp [isParityPair, headTwin]
    · simp [isParityPair, hm, headTwin]

theorem leafOptions_ok_parity {hasHandler hasRedirect : Bool} {method : Option String}
    {methods : Option (List String)} {name : Option String} {path : String}
    {rules : List (String × String)} {l : List ROpts}
    (h : leafOptions hasHandler hasRedirect method methods name path rules = Except.ok l) :
    isParityPair l := by
  unfold leafOptions at h
  split at h
  · exact absurd h (by simp)
  · split at h
    · exact absurd h (by simp)
    · split at h
      · cases h
        exact isParityPair_leaf _ _ _ _
      · exact absurd h (by simp)

mutual
theorem flattenOne_parity (d : RDef) :
    ∀ (md depth : Nat) (pp pn : String) (pr : List (String × String)) (l : List ROpts),
      flattenOne md depth pp pn pr d = Except.ok l → isParityPair l := by
  cases d with
  | node name path method methods hasHandler hasRedirect rules children =>
    intro md depth pp pn pr l h
    rw [flattenOne.eq_def] at h
    dsimp only at h
    split at h
    · exact absurd h (by simp)
    · cases path with
      | none => exact absurd h (by simp)
      | some p =>
        cases children with
        | nil => exact leafOptions_ok_parity h
        | cons c cs => exact flattenMany_parity (c :: cs) md (depth + 1) _ _ _ l h

theorem flattenMany_parity (ds : List RDef) :
    ∀ (md depth : Nat) (pp pn : String) (pr : List (String × String)) (l : List ROpts),
      flattenMany md depth pp pn pr ds = Except.ok l → isParityPair l := by
  cases ds with
  | nil =>
    intro md depth pp pn pr l h
    rw [flattenMany] at h
    cases h
    exact isParityPair_nil
  | cons d ds =>
    intro md depth pp pn pr l h
    rw [flattenMany.eq_def] at h
    dsimp only at h
    cases hone : flattenOne md depth pp pn pr d with
    | error e => rw [hone] at h; exact absurd h (by simp)
    | ok r =>
      rw [hone] at h
      cases hmany : flattenMany md depth pp pn pr ds with
      | error e => rw [hmany] at h; exact absurd h (by simp)
      | ok rs =>
        rw [hmany] at h
        cases h
        exact isParityPair_append (flattenOne_parity d md depth pp pn pr r hone)
          (flattenMany_parity ds md depth pp pn pr rs hmany)
end

/-- Sorted insertion of a route by its path (string order), for the
collection dump. -/
def insertByPath (x : ROpts) : List ROpts → List ROpts
  | [] => [x]
  | a :: l => if a.path < x.path then a :: insertByPath x l else x :: a :: l

/-- Insertion sort of routes by path ascending. -/
def sortByPath : List ROpts → List ROpts
  | [] => []
  | a :: l => insertByPath a (sortByPath l)

/-- Modelled from the spec: `RouteCollection.dump` (spec section 4.5;
RouteCollection.ts is not in the snapshot): sort the routes by path
ascending and exclude the internal-HEAD routes. -/
def dumpRoutes (routes : List ROpts) : List ROpts :=
  sortByPath (routes.filter (fun r => !r.isInternalHeader))

theorem mem_insertByPath {y x : ROpts} : ∀ {l : List ROpts},
    y ∈ insertByPath x l → y = x ∨ y ∈ l := by
  intro l
  induction l with
  | nil =>
    intro h
    rw [insertByPath] at h
    left
    simpa using h
  | cons a t ih =>
    rw [insertByPath]
    intro h
    by_cases hc : a.path < x.path
    · rw [if_pos hc] at h
      rcases List.mem_cons.mp h with rfl | h2
      · exact Or.inr (List.mem_cons_self _ _)
      · rcases ih h2 with h3 | h3
        · exact Or.inl h3
        · exact Or.inr (List.mem_cons_of_mem _ h3)
    · rw [if_neg hc] at h
      rcases List.mem_cons.mp h with rfl | h2
      · exact Or.inl rfl
      · exact Or.inr h2

theorem mem_sortByPath {y : ROpts} : ∀ {l : List ROpts}, y ∈ sortByPath l → y ∈ l := by
  intro l
  induction l with
  | nil =>
    intro h
    rw [sortByPath] at h
    simp at h
  | cons a t ih =>
    rw [sortByPath]
    intro h
    rcases mem_insertByPath h with rfl | h2
    · exact List.mem_cons_self _ _
    · exact List.mem_cons_of_mem _ (ih h2)

/-- C2: for every set of definitions mapped by `RouteMapper.toRoutes`,
the internal-HEAD routes of the output are exactly the HEAD twins — same
path, same rules (hence same compiled constraints), `isInternalHeader`
set — of the produced GET routes, one per GET route and in matching
order; and no internal-HEAD route survives into `RouteCollection.dump`. -/
theorem head_synthesis_parity (md : Nat) (pre : String) (defs : List RDef)
    (routes : List ROpts) (h : toRoutes md pre defs = Except.ok routes) :
    routes.filter (fun r => r.isInternalHeader) =
      (routes.filter (fun r => r.method == "GET")).map headTwin ∧
    ∀ r ∈ dumpRoutes routes, r.isInternalHeader = false := by
  constructor
  · exact flattenMany_parity defs md 1 pre "" [] routes h
  · intro r hr
    rw [dumpRoutes] at hr
    have h2 := mem_sortByPath hr
    have h3 := List.mem_filter.mp h2
    simpa using h3.2

/-- A one-definition GET page, input of the C2 witness. -/
def pageDefs : List RDef :=
  [RDef.node (some "p") (some "/page") (some "GET") none true false [] []]

/-- The mapped output of `pageDefs` under prefix "/api": the GET route
and its internal HEAD twin. -/
def pageRoutes : List ROpts :=
  [{ name := some "p", path := "/api/page", method := "GET", rules := [],
     isInternalHeader := false },
   { name := some "p", path := "/api/page", method := "HEAD", rules := [],
     isInternalHeader := true }]

/-- Witness for C2 at a concrete input: mapping one GET definition under
prefix "/api" yields the GET route plus exactly its internal HEAD twin. -/
theorem head_synthesis_parity_witness :
    pageRoutes.filter (fun r => r.isInternalHeader) =
      (pageRoutes.filter (fun r => r.method == "GET")).map headTwin :=
  (head_synthesis_parity 5 "/api" pageDefs pageRoutes (by decide)).1

/-- The mapper configuration the claims mention: the `maxDepth` limit,
an integer so that non-positive limits are expressible. -/
structure RouteMapperCfg where
  maxDepth : Int
deriving DecidableEq, Repr

/-- Modelled from the spec: `RouteMapper` construction (spec section
4.6): fails with `RouterError` when `maxDepth` is not positive. -/
def mkRouteMapper (maxDepth : Int) : Except MapperError RouteMapperCfg :=
  if maxDepth ≤ 0 then Except.error MapperError.routerError
  else Except.ok { maxDepth := maxDepth }

/-- C5: `RouteMapper` construction fails with `RouterError` for every
`maxDepth` that is zero or negative, and for a mapper with `maxDepth` k,
`toRoutes` fails with `RouterError` on every definition tree whose
nesting depth exceeds k. -/
theorem mapper_depth_guard :
    (∀ md : Int, md ≤ 0 → mkRouteMapper md = Except.error MapperError.routerError) ∧
    (∀ (k : Nat) (pre : String) (defs : List RDef),
      k < heightMany defs →
      toRoutes k pre defs = Except.error MapperError.routerError) := by
  constructor
  · intro md h
    rw [mkRouteMapper, if_pos h]
  · intro k pre defs h
    rw [toRoutes]
    refine flattenMany_depth_exceeded defs k 1 pre "" [] ?_ ?_ <;> omega

/-- A two-level definition tree, input of the C5 witness. -/
def nestedDefs : List RDef :=
  [RDef.node none (some "/parent") (some "GET") none true false []
    [RDef.node none (some "/child") (some "GET") none true false [] []]]

/-- Witness for C5 at concrete inputs: construction with maxDepth 0
fails, and mapping a two-level tree with maxDepth 1 fails. -/
theorem mapper_depth_guard_witness :
    mkRouteMapper 0 = Except.error MapperError.routerError ∧
    toRoutes 1 "/api" nestedDefs = Except.error MapperError.routerError :=
  ⟨mapper_depth_guard.1 0 (by decide),
   mapper_depth_guard.2 1 "/api" nestedDefs (by decide)⟩

/-! ## C6 — path and name composition of the mapper

The composed path and name are proved to be in normal form — no repeated
slash survives in a composed path and it never ends in a slash unless it
is exactly "/"; no repeated dot survives in a composed name and it
neither starts nor ends with a dot — and the flattening is checked on
the spec's concrete scenario D and on the sanitization fixture of the
test suite. -/

/-- Whether two adjacent occurrences of the character `c` appear in the
list. -/
def hasAdjacent (c : Char) : List Char → Bool
  | [] => false
  | [_] => false
  | a :: b :: l => (a == c && b == c) || hasAdjacent c (b :: l)

theorem collapseRun_true_head (c : Char) :
    ∀ l : List Char, (collapseRun c true l).head? ≠ some c := by
  intro l
  induction l with
  | nil => simp [collapseRun]
  | cons a t ih =>
    rw [collapseRun]
    by_cases ha : a = c
    · rw [if_pos ha, if_pos rfl]
      exact ih
    · rw [if_neg ha]
      simpa using ha

theorem collapseRun_no_adjacent (c : Char) :
    ∀ (l : List Char) (p : Bool), hasAdjacent c (collapseRun c p l) = false := by
  intro l
  induction l with
  | nil => intro p; rfl
  | cons a t ih =>
    intro p
    rw [collapseRun]
    by_cases ha : a = c
    · rw [if_pos ha]
      cases p with
      | true => exact ih true
      | false =>
        rw [if_neg Bool.false_ne_true]
        cases hm : collapseRun c true t with
        | nil => rfl
        | cons b m =>
          rw [hasAdjacent]
          have hb : b ≠ c := by
            have h2 := collapseRun_true_head c t
            rw [hm] at h2
            simpa using h2
          have hrest : hasAdjacent c (b :: m) = false := by
            rw [← hm]; exact ih true
          simp [hb, hrest]
    · rw [if_neg ha]
      cases hm : collapseRun c false t with
      | nil => rfl
      | cons b m =>
        rw [hasAdjacent]
        have hrest : hasAdjacent c (b :: m) = false := by
          rw [← hm]; exact ih false
        simp [ha, hrest]

theorem hasAdjacent_tail (c : Char) {a : Char} {l : List Char}
    (h : hasAdjacent c (a :: l) = false) : hasAdjacent c l = false := by
  cases l with
  | nil => rfl
  | cons b t =>
    rw [hasAdjacent] at h
    exact (Bool.or_eq_false_iff.mp h).2

theorem hasAdjacent_iff_pair (c : Char) :
    ∀ l : List Char, hasAdjacent c l = true ↔ [c, c] <:+: l := by
  intro l
  induction l with
  | nil =>
    constructor
    · intro h; rw [hasAdjacent] at h; exact absurd h (by simp)
    · intro h
      have h2 := h.length_le
      simp at h2
  | cons a t ih =>
    cases t with
    | nil =>
      constructor
      · intro h; rw [hasAdjacent] at h; exact absurd h (by simp)
      · intro h
        have h2 := h.length_le
        simp at h2
    | cons b m =>
      rw [hasAdjacent, Bool.or_eq_true, List.infix_cons_iff]
      constructor
      · rintro (h | h)
        · left
          rw [Bool.and_eq_true] at h
          have ha : a = c := by simpa using h.1
          have hb : b = c := by simpa using h.2
          subst ha
          subst hb
          exact List.cons_prefix_cons.mpr ⟨rfl, List.cons_prefix_cons.mpr ⟨rfl, List.nil_prefix⟩⟩
        · exact Or.inr (ih.mp h)
      · rintro (h | h)
        · left
          rcases List.cons_prefix_cons.mp h with ⟨h1, h2⟩
          rcases List.cons_prefix_cons.mp h2 with ⟨h3, _⟩
          rw [← h1, ← h3]
          simp
        · exact Or.inr (ih.mpr h)

theorem hasAdjacent_reverse (c : Char) (l : List Char) :
    hasAdjacent c l.reverse = hasAdjacent c l := by
  have key : ([c, c] <:+: l.reverse) ↔ ([c, c] <:+: l) := by
    constructor
    · intro h
      have h2 : [c, c].reverse <:+: l.reverse := by simpa using h
      exact List.reverse_infix.mp h2
    · intro h
      have h2 := List.reverse_infix.mpr h
      simpa using h2
  have h3 : hasAdjacent c l.reverse = true ↔ hasAdjacent c l = true := by
    rw [hasAdjacent_iff_pair, hasAdjacent_iff_pair]
    exact key
  cases hb : hasAdjacent c l with
  | true => exact h3.mpr hb
  | false =>
    cases hr : hasAdjacent c l.reverse with
    | false => rfl
    | true =>
      rw [hb] at h3
      exact absurd (h3.mp hr) (by simp)

theorem stripLead_head (c : Char) : ∀ {l : List Char},
    hasAdjacent c l = false → (stripLead c l).head? ≠ some c := by
  intro l h
  cases l with
  | nil => simp [stripLead]
  | cons a t =>
    rw [stripLead]
    by_cases ha : a = c
    · rw [if_pos ha]
      cases t with
      | nil => simp
      | cons b m =>
        rw [hasAdjacent] at h
        have hb : b ≠ c := by
          have h2 := (Bool.or_eq_false_iff.mp h).1
          rw [Bool.and_eq_false_iff] at h2
          rcases h2 with h3 | h3
          · exact absurd ha (by simpa using h3)
          · simpa using h3
        simpa using hb
    · rw [if_neg ha]
      simpa using ha

theorem stripLead_adjacent (c : Char) : ∀ {l : List Char},
    hasAdjacent c l = false → hasAdjacent c (stripLead c l) = false := by
  intro l h
  cases l with
  | nil => rfl
  | cons a t =>
    rw [stripLead]
    by_cases ha : a = c
    · rw [if_pos ha]
      exact hasAdjacent_tail c h
    · rw [if_neg ha]
      exact h

theorem stripLead_suffix (c : Char) : ∀ l : List Char, stripLead c l <:+ l := by
  intro l
  cases l with
  | nil => exact List.suffix_refl _
  | cons a t =>
    rw [stripLead]
    by_cases ha : a = c
    · rw [if_pos ha]
      exact List.suffix_cons _ _
    · rw [if_neg ha]

theorem stripTrail_prefix (c : Char) (l : List Char) : stripTrail c l <+: l := by
  rw [stripTrail]
  have h := stripLead_suffix c l.reverse
  have h2 := List.reverse_prefix.mpr h
  simpa using h2

theorem stripTrail_getLast (c : Char) {l : List Char}
    (h : hasAdjacent c l = false) : (stripTrail c l).getLast? ≠ some c := by
  rw [stripTrail, List.getLast?_reverse]
  exact stripLead_head c (by rw [hasAdjacent_reverse]; exact h)

theorem stripTrail_adjacent (c : Char) {l : List Char}
    (h : hasAdjacent c l = false) : hasAdjacent c (stripTrail c l) = false := by
  rw [stripTrail, hasAdjacent_reverse]
  exact stripLead_adjacent c (by rw [hasAdjacent_reverse]; exact h)

theorem stripTrail_head (c : Char) {l : List Char}
    (h : l.head? ≠ some c) : (stripTrail c l).head? ≠ some c := by
  cases hm : stripTrail c l with
  | nil => simp
  | cons x t =>
    have hpre := stripTrail_prefix c l
    rw [hm] at hpre
    rcases hpre with ⟨rest, hrest⟩
    rw [← hrest] at h
    simpa using h

theorem joinPath_no_double_slash (a b : String) :
    hasAdjacent '/' (joinPath a b).data = false := by
  rw [joinPath]
  by_cases hs : String.mk (collapseRun '/' false (a.data ++ ['/'] ++ b.data)) = "/"
  · rw [if_pos hs, hs]
    rfl
  · rw [if_neg hs]
    exact stripTrail_adjacent '/' (collapseRun_no_adjacent '/' _ false)

theorem joinPath_no_trailing_slash (a b : String) :
    joinPath a b = "/" ∨ (joinPath a b).data.getLast? ≠ some '/' := by
  rw [joinPath]
  by_cases hs : String.mk (collapseRun '/' false (a.data ++ ['/'] ++ b.data)) = "/"
  · rw [if_pos hs]
    exact Or.inl hs
  · rw [if_neg hs]
    exact Or.inr (stripTrail_getLast '/' (collapseRun_no_adjacent '/' _ false))

theorem joinName_sanitized (a b : String) :
    hasAdjacent '.' (joinName a b).data = false ∧
    (joinName a b).data.head? ≠ some '.' ∧
    (joinName a b).data.getLast? ≠ some '.' := by
  rw [joinName]
  have hadj := collapseRun_no_adjacent '.' (a.data ++ ['.'] ++ b.data) false
  have hadj1 := stripLead_adjacent '.' hadj
  refine ⟨stripTrail_adjacent '.' hadj1, ?_, stripTrail_getLast '.' hadj1⟩
  exact stripTrail_head '.' (stripLead_head '.' hadj)

/-- The nested users/show definition of spec scenario D, input of the C6
theorem. -/
def usersDefs : List RDef :=
  [RDef.node (some "users") (some "/users") none none true false []
    [RDef.node (some "show") (some "/:id") (some "GET") none true false [] []]]

/-- C6: every composed route path is the parent prefix joined to the
child path with repeated "/" collapsed (no "//" survives) and no
trailing "/" unless the whole path is "/"; every composed name has its
repeated dots collapsed and its leading and trailing dots stripped; and
concretely, flattening prefix "/api" over definition
name "users", path "/users" with child name "show", method GET, path
"/:id" produces the route named "users.show" with path "/api/users/:id"
and method GET (plus its internal HEAD twin), while the sanitization
fixture "..demo.." under prefix "/api//" with path "///demo" maps to
name "demo" and path "/api/demo". -/
theorem nested_flattening_composition :
    (∀ a b : String, hasAdjacent '/' (joinPath a b).data = false ∧
      (joinPath a b = "/" ∨ (joinPath a b).data.getLast? ≠ some '/')) ∧
    (∀ a b : String, hasAdjacent '.' (joinName a b).data = false ∧
      (joinName a b).data.head? ≠ some '.' ∧
      (joinName a b).data.getLast? ≠ some '.') ∧
    toRoutes 5 "/api" usersDefs = Except.ok
      [{ name := some "users.show", path := "/api/users/:id", method := "GET",
         rules := [], isInternalHeader := false },
       { name := some "users.show", path := "/api/users/:id", method := "HEAD",
         rules := [], isInternalHeader := true }] ∧
    toRoutes 5 "/api//"
      [RDef.node (some "..demo..") (some "///demo") (some "GET") none true false [] []] =
      Except.ok
        [{ name := some "demo", path := "/api/demo", method := "GET",
           rules := [], isInternalHeader := false },
         { name := some "demo", path := "/api/demo", method := "HEAD",
           rules := [], isInternalHeader := true }] := by
  refine ⟨?_, ?_, by decide, by decide⟩
  · intro a b
    exact ⟨joinPath_no_double_slash a b, joinPath_no_trailing_slash a b⟩
  · intro a b
    exact joinName_sanitized a b

/-! ## C3, C4 — Route.generate and Route.bind (modelled from the spec)

Route.ts is absent from the snapshot; its test suite
(src/unnamed/part_002) exercises this behaviour.  The compiled route is
embedded at the level of its URI constraints (spec section 3): an ordered
list of literal and parameter constraints, one per path segment.
`generate` walks the constraints interpolating the supplied parameter
values; the URI matcher is the match of the constraint list against the
segment list (with the backtracking an optional regex group performs);
`bind` extracts the captures in constraint order, takes the constraint
default when a capture is missing, coerces numeric-looking raw captures
to numbers, feeds declared binders, and fails with `RouteNotFoundError`
when a non-optional parameter resolves to nothing. -/

/-- One URI constraint (spec section 3): a literal segment, or a named
parameter with its optionality and its default value. -/
inductive UriConstraint where
  | lit (s : String)
  | par (pname : String) (optional : Bool) (dflt : Option PValue)
deriving DecidableEq, Repr

/-- The parameter constraints, in declaration order:
name, optionality, default. -/
def paramsOf : List UriConstraint → List (String × Bool × Option PValue)
  | [] => []
  | UriConstraint.lit _ :: cs => paramsOf cs
  | UriConstraint.par n o d :: cs => (n, o, d) :: paramsOf cs

/-- Modelled from the spec: `Route.generate` (spec section 4.4; Route.ts
is not in the snapshot), at segment level: literals are emitted, a
supplied parameter is rendered, an unsupplied optional parameter is
omitted, and a missing required parameter fails with `RouterError`. -/
def generateUri (cs : List UriConstraint) (ps : List (String × PValue)) :
    Except RouterFailure Uri :=
  match cs with
  | [] => Except.ok []
  | UriConstraint.lit s :: rest => (generateUri rest ps).map (fun u => s :: u)
  | UriConstraint.par n o _ :: rest =>
    match List.lookup n ps with
    | some v => (generateUri rest ps).map (fun u => renderValue v :: u)
    | none => if o then generateUri rest ps else Except.error RouterFailure.routerError

/-- The match of the compiled constraint list against a segment list,
returning the captures (one per parameter, in declaration order) when it
succeeds.  An optional parameter first greedily consumes a non-empty
segment and otherwise is skipped, as the emitted optional regex group
does under backtracking; the segment-level stand-in for the default
`[^/]+` parameter rule is non-emptiness. -/
def tryBind : List UriConstraint → Uri → Option (List (Option String))
  | [], [] => some []
  | [], _ :: _ => none
  | UriConstraint.lit s :: cs, u :: us => if s = u then tryBind cs us else none
  | UriConstraint.lit _ :: _, [] => none
  | UriConstraint.par _ o _ :: cs, [] =>
    if o then (tryBind cs []).map (fun caps => none :: caps) else none
  | UriConstraint.par _ o _ :: cs, u :: us =>
    match (if u ≠ "" then (tryBind cs us).map (fun caps => some u :: caps) else none) with
    | some caps => some caps
    | none =>
      if o then (tryBind cs (u :: us)).map (fun caps => none :: caps) else none

/-- The capture list `bind` works from: the successful match captures,
or one missing capture per parameter when the regex does not match (the
code then falls back to the constraint defaults parameter by
parameter). -/
def capturesOf (cs : List UriConstraint) (u : Uri) : List (Option String) :=
  match tryBind cs u with
  | some caps => caps
  | none => List.replicate (paramsOf cs).length none

/-- Resolution of one parameter (spec section 4.4 bind steps 2-4): the
raw value is the coerced capture, falling back to the constraint
default; a declared binder receives the raw value, otherwise the raw
value stands. -/
def resolveValue (binders : List (String × (Option PValue → Option PValue)))
    (d : Option PValue) (n : String) (cap : Option String) : Option PValue :=
  let raw := match cap with
    | some s => some (coerceRaw s)
    | none => d
  match List.lookup n binders with
  | some f => f raw
  | none => raw

/-- Resolution of the whole parameter list against the capture list, in
declaration order. -/
def resolveZip (binders : List (String × (Option PValue → Option PValue))) :
    List (String × Bool × Option PValue) → List (Option String) →
      List (String × Bool × Option PValue)
  | [], _ => []
  | _ :: _, [] => []
  | (n, o, d) :: ps, cap :: caps =>
    (n, o, resolveValue binders d n cap) :: resolveZip binders ps caps

/-- The resolved parameter list of a bind: name, optionality, resolved
value. -/
def resolvedParams (cs : List UriConstraint)
    (binders : List (String × (Option PValue → Option PValue))) (u : Uri) :
    List (String × Bool × Option PValue) :=
  resolveZip binders (paramsOf cs) (capturesOf cs u)

/-- Modelled from the spec: `Route.bind` (spec section 4.4; Route.ts is
not in the snapshot): resolve every parameter, fail with
`RouteNotFoundError` when a non-optional parameter resolves to nothing,
otherwise produce the bound parameters. -/
def bindRoute (cs : List UriConstraint)
    (binders : List (String × (Option PValue → Option PValue))) (u : Uri) :
    Except RouterFailure (List (String × Option PValue)) :=
  let rs := resolvedParams cs binders u
  if rs.any (fun t => !t.2.1 && t.2.2.isNone) then Except.error RouterFailure.routeNotFound
  else Except.ok (rs.map (fun t => (t.1, t.2.2)))

theorem resolveZip_getElem
    (binders : List (String × (Option PValue → Option PValue))) :
    ∀ (ps : List (String × Bool × Option PValue)) (caps : List (Option String))
      (i : Nat) (n : String) (o : Bool) (d : Option PValue) (cap : Option String),
      ps[i]? = some (n, o, d) → caps[i]? = some cap →
      (resolveZip binders ps caps)[i]? = some (n, o, resolveValue binders d n cap) := by
  intro ps
  induction ps with
  | nil => intro caps i n o d cap h; simp at h
  | cons t ps ih =>
    intro caps i n o d cap h1 h2
    cases caps with
    | nil => simp at h2
    | cons c caps =>
      obtain ⟨tn, to2, td⟩ := t
      rw [resolveZip]
      cases i with
      | zero =>
        simp only [List.getElem?_cons_zero, Option.some_inj] at h1 h2
        cases h1
        cases h2
        simp
      | succ j =>
        simp only [List.getElem?_cons_succ] at h1 h2 ⊢
        exact ih caps j n o d cap h1 h2

/-- C4: in `Route.bind`, each parameter's raw value is the regex capture
with the constraint default as fallback, and with no declared binding the
numeric-looking capture is coerced to a number (positionally: a
successful bind holds, at each parameter, the coerced capture or else
the default); concretely GET /users/42 under path "/users/:id" binds
params.id to the number 42 and not the string "42"; and whenever some
non-optional parameter resolves to nothing, bind fails with
`RouteNotFoundError`. -/
theorem route_bind_semantics :
    (∀ (cs : List UriConstraint) (u : Uri) (ps : List (String × Option PValue))
      (i : Nat) (n : String) (o : Bool) (d : Option PValue) (cap : Option String),
      bindRoute cs [] u = Except.ok ps →
      (paramsOf cs)[i]? = some (n, o, d) →
      (capturesOf cs u)[i]? = some cap →
      ps[i]? = some (n, Option.or (cap.map coerceRaw) d)) ∧
    bindRoute [UriConstraint.lit "users", UriConstraint.par "id" false none] []
      ["users", "42"] = Except.ok [("id", some (PValue.num 42))] ∧
    (∀ (cs : List UriConstraint)
      (binders : List (String × (Option PValue → Option PValue))) (u : Uri)
      (i : Nat) (n : String),
      (resolvedParams cs binders u)[i]? = some (n, false, (none : Option PValue)) →
      bindRoute cs binders u = Except.error RouterFailure.routeNotFound) := by
  refine ⟨?_, by decide, ?_⟩
  · intro cs u ps i n o d cap hbind hps hcaps
    have hval : resolveValue [] d n cap = Option.or (cap.map coerceRaw) d := by
      cases cap with
      | none => rfl
      | some s => rfl
    have hrz := resolveZip_getElem [] (paramsOf cs) (capturesOf cs u) i n o d cap hps hcaps
    rw [bindRoute] at hbind
    split at hbind
    · exact absurd hbind (by simp)
    · rw [Except.ok.injEq] at hbind
      subst hbind
      rw [List.getElem?_map, resolvedParams, hrz, hval]
      rfl
  · intro cs binders u i n hres
    rw [bindRoute]
    have hmem : (n, false, (none : Option PValue)) ∈ resolvedParams cs binders u := by
      exact List.getElem?_mem hres
    have hany : (resolvedParams cs binders u).any (fun t => !t.2.1 && t.2.2.isNone) = true := by
      rw [List.any_eq_true]
      exact ⟨(n, false, none), hmem, by simp⟩
    rw [if_pos hany]

/-- Witness for C4 at concrete inputs: binding the segments of /users/42
under path "/users/:id" succeeds, and at parameter position 0 the bound
value is the coerced capture — the number 42; binding the root URI under
a required ":id" fails with `RouteNotFoundError`. -/
theorem route_bind_semantics_witness :
    ([("id", some (PValue.num 42))] : List (String × Option PValue))[0]? =
      some ("id", Option.or ((some "42").map coerceRaw) none) ∧
    bindRoute [UriConstraint.par "id" false none] [] [] =
      Except.error RouterFailure.routeNotFound := by
  constructor
  · exact route_bind_semantics.1
      [UriConstraint.lit "users", UriConstraint.par "id" false none]
      ["users", "42"] [("id", some (PValue.num 42))] 0 "id" false none (some "42")
      (by decide) (by decide) (by decide)
  · exact route_bind_semantics.2.2 [UriConstraint.par "id" false none] [] [] 0 "id"
      (by decide)

theorem resolveZip_mapped (P : List (String × PValue)) :
    ∀ ps : List (String × Bool × Option PValue),
      (∀ t ∈ ps, ∃ v, List.lookup t.1 P = some v ∧ coerceRaw (renderValue v) = v) →
      resolveZip [] ps (ps.map (fun t => (List.lookup t.1 P).map renderValue)) =
        ps.map (fun t => (t.1, t.2.1, List.lookup t.1 P)) := by
  intro ps
  induction ps with
  | nil => intro h; rfl
  | cons t ps ih =>
    intro h
    obtain ⟨n, o, d⟩ := t
    obtain ⟨v, hv, hcan⟩ := h (n, o, d) (List.mem_cons_self _ _)
    rw [List.map_cons, List.map_cons, resolveZip]
    congr 1
    · rw [hv]
      simp [resolveValue, hcan]
    · exact ih (fun t2 ht => h t2 (List.mem_cons_of_mem _ ht))

theorem generate_bind_captures (P : List (String × PValue)) :
    ∀ cs : List UriConstraint,
      (∀ t ∈ paramsOf cs, ∃ v, List.lookup t.1 P = some v ∧ renderValue v ≠ "") →
      ∃ u, generateUri cs P = Except.ok u ∧
        tryBind cs u =
          some ((paramsOf cs).map (fun t => (List.lookup t.1 P).map renderValue)) := by
  intro cs
  induction cs with
  | nil => intro h; exact ⟨[], rfl, rfl⟩
  | cons c cs ih =>
    intro h
    cases c with
    | lit s =>
      obtain ⟨u, hgen, hbind⟩ := ih (fun t ht => h t ht)
      refine ⟨s :: u, ?_, ?_⟩
      · rw [generateUri, hgen]
        rfl
      · rw [tryBind, if_pos rfl, hbind]
        rfl
    | par n o d =>
      obtain ⟨v, hv, hne⟩ := h (n, o, d) (by rw [paramsOf]; exact List.mem_cons_self _ _)
      obtain ⟨u, hgen, hbind⟩ :=
        ih (fun t ht => h t (by rw [paramsOf]; exact List.mem_cons_of_mem _ ht))
      refine ⟨renderValue v :: u, ?_, ?_⟩
      · rw [generateUri, hv, hgen]
        rfl
      · rw [tryBind, if_pos hne, hbind]
        have hps : paramsOf (UriConstraint.par n o d :: cs) = (n, o, d) :: paramsOf cs := rfl
        rw [hps, List.map_cons, hv]
        rfl

/-- C3 (amended): for every route that declares no external bindings and
every parameter assignment P that supplies a canonical value for every
parameter of the route — a value whose rendering is non-empty and whose
numeric coercion gives the value back, that is, numeric-looking values
supplied as numbers — generation succeeds, matching the generated URI
against the route (here, against the one-route collection holding it)
returns that route, and binding the generated URI recovers exactly the
values of P at the route's parameters. -/
theorem generate_match_bind_roundtrip (cs : List UriConstraint) (m : String)
    (P : List (String × PValue))
    (hsup : ∀ t ∈ paramsOf cs, ∃ v, List.lookup t.1 P = some v ∧
      coerceRaw (renderValue v) = v ∧ renderValue v ≠ "") :
    ∃ u, generateUri cs P = Except.ok u ∧
      collMatch [{ method := m, matchesRest := fun uri => (tryBind cs uri).isSome }]
        { method := m, path := u } = Except.ok (MatchResult.matched 0) ∧
      bindRoute cs [] u =
        Except.ok ((paramsOf cs).map (fun t => (t.1, List.lookup t.1 P))) := by
  obtain ⟨u, hgen, hbind⟩ := generate_bind_captures P cs
    (fun t ht => (hsup t ht).imp (fun v hv => ⟨hv.1, hv.2.2⟩))
  refine ⟨u, hgen, ?_, ?_⟩
  · have hfull : fullMatch { method := m, path := u }
        { method := m, matchesRest := fun uri => (tryBind cs uri).isSome } = true := by
      rw [fullMatch]
      simp [hbind]
    have hidx : firstIdxSat
        (fullMatch { method := m, path := u })
        [{ method := m, matchesRest := fun uri => (tryBind cs uri).isSome }] = some 0 := by
      rw [firstIdxSat, if_pos hfull]
    unfold collMatch
    rw [hidx]
  · have hcaps : capturesOf cs u =
        (paramsOf cs).map (fun t => (List.lookup t.1 P).map renderValue) := by
      rw [capturesOf, hbind]
    have hres : resolvedParams cs [] u =
        (paramsOf cs).map (fun t => (t.1, t.2.1, List.lookup t.1 P)) := by
      rw [resolvedParams, hcaps]
      exact resolveZip_mapped P (paramsOf cs)
        (fun t ht => (hsup t ht).imp (fun v hv => ⟨hv.1, hv.2.1⟩))
    have hany : ((paramsOf cs).map
        (fun t => (t.1, t.2.1, List.lookup t.1 P))).any
          (fun t => !t.2.1 && t.2.2.isNone) = false := by
      rw [List.any_map]
      rw [List.any_eq_false]
      intro t ht
      obtain ⟨v, hv, _, _⟩ := hsup t ht
      simp [Function.comp, hv]
    rw [bindRoute, hres, if_neg (by simp [hany]), List.map_map]
    rfl

/-- The compiled constraints of path "/users/:id": a literal segment and
a required "id" parameter, used by the C3 counterexample and witness. -/
def usersIdConstraints : List UriConstraint :=
  [UriConstraint.lit "users", UriConstraint.par "id" false none]

/-- Counterexample to C3 as stated: under path "/users/:id" (no
bindings), generating from the assignment mapping id to the STRING "42"
produces /users/42, but binding that URI recovers the NUMBER 42, because
bind numerically coerces the capture; the recovered parameters are not
equal to the supplied P. -/
theorem roundtrip_coercion_counterexample :
    generateUri usersIdConstraints [("id", PValue.str "42")] =
      Except.ok ["users", "42"] ∧
    bindRoute usersIdConstraints [] ["users", "42"] =
      Except.ok [("id", some (PValue.num 42))] ∧
    some (PValue.num 42) ≠ some (PValue.str "42") := by
  refine ⟨by decide, by decide, by decide⟩

/-- The one-route collection entry holding the /users/:id route, for the
C3 witness. -/
def usersIdRoute : CRoute :=
  { method := "GET", matchesRest := fun uri => (tryBind usersIdConstraints uri).isSome }

/-- Witness for C3 (amended) at a concrete input: the same route with the
canonical assignment mapping id to the number 42 generates, matches and
binds back to exactly that assignment. -/
theorem generate_match_bind_roundtrip_witness :
    ∃ u, generateUri usersIdConstraints [("id", PValue.num 42)] = Except.ok u ∧
      collMatch [usersIdRoute] { method := "GET", path := u } =
        Except.ok (MatchResult.matched 0) ∧
      bindRoute usersIdConstraints [] u =
        Except.ok ((paramsOf usersIdConstraints).map
          (fun t => (t.1, List.lookup t.1 [("id", PValue.num 42)]))) := by
  refine generate_match_bind_roundtrip usersIdConstraints "GET" _ ?_
  intro t ht
  have ht2 : t = ("id", false, (none : Option PValue)) := List.mem_singleton.mp ht
  subst ht2
  exact ⟨PValue.num 42, by decide, by decide, by decide⟩
